import Mathlib

/-!
Verification of the AnalyseSI conceptual-to-logical (MCD to MLD) derivation
core: the conceptual data model (`Project` with entities, associations and
links), the data dictionary, the structural validator, the logical
transformer and the column-name override layer.

Each definition is a shallow embedding of the corresponding Python
definition in the repository (`src/models/*.py`, `src/controllers/*.py`).
Python dictionaries keyed by id are embedded as lists of values in insertion
order; a dict insert replaces in place when the key is present and appends
otherwise, a dict delete filters the key out, and a dict lookup finds the
first value with the key.  Presentation-only fields (x/y coordinates,
colors, metadata, timestamps) are omitted; the `modified` flag is kept.
-/

namespace AnalyseSI

/-- `models/attribute.py` : `Attribute` (name, data_type, size, is_primary_key). -/
structure Attribute where
  name : String
  data_type : String
  size : Option Nat := none
  is_primary_key : Bool := false
deriving DecidableEq

/-- `Attribute.get_sql_type`: the declared type, with the size suffix in
parentheses when the type is VARCHAR, CHAR or DECIMAL and a size is present. -/
def Attribute.get_sql_type (a : Attribute) : String :=
  match a.size with
  | some s =>
    if a.data_type = "VARCHAR" ∨ a.data_type = "CHAR" ∨ a.data_type = "DECIMAL" then
      a.data_type ++ "(" ++ toString s ++ ")"
    else a.data_type
  | none => a.data_type

/-- `models/entity.py` : `Entity` (id, name, owned attributes). -/
structure Entity where
  name : String
  attributes : List Attribute := []
  id : String
deriving DecidableEq

/-- `Entity.get_primary_keys`: the attributes flagged as primary key. -/
def Entity.get_primary_keys (e : Entity) : List Attribute :=
  e.attributes.filter (fun attr => attr.is_primary_key)

/-- `models/association.py` : `Association` (id, name, carrying attributes). -/
structure Association where
  name : String
  attributes : List Attribute := []
  id : String
deriving DecidableEq

/-- `Association.has_attributes`: whether carrying attributes exist. -/
def Association.has_attributes (a : Association) : Bool :=
  a.attributes.length > 0

/-- `models/link.py` : `Link` (entity and association references plus a
cardinality pair). -/
structure Link where
  entity_id : String
  association_id : String
  cardinality_min : String := "0"
  cardinality_max : String := "N"
  id : String
deriving DecidableEq

/-- `models/project.py` : `Project`, the aggregate holding all entities,
associations, links and the MLD column-name overrides.  Each Python dict
keyed by id is a list of values in insertion order; the overrides dict is a
list of key-value pairs. -/
structure Project where
  entities : List Entity := []
  associations : List Association := []
  links : List Link := []
  mld_column_overrides : List (String × String) := []
  modified : Bool := false
deriving DecidableEq

/-- Python `d[key(x)] = x` on an insertion-ordered dict: replace in place
when the key is present, append otherwise. -/
def dictInsert {α : Type} (key : α → String) (l : List α) (x : α) : List α :=
  if l.any (fun y => key y = key x) then
    l.map (fun y => if key y = key x then x else y)
  else l ++ [x]

/-- `Project.add_entity`. -/
def Project.add_entity (p : Project) (entity : Entity) : Project :=
  { p with entities := dictInsert Entity.id p.entities entity, modified := true }

/-- `Project.remove_entity`: when the entity exists, delete every link whose
`entity_id` references it, then the entity itself; otherwise do nothing. -/
def Project.remove_entity (p : Project) (entity_id : String) : Project :=
  if p.entities.any (fun e => e.id = entity_id) then
    { p with
      links := p.links.filter (fun link => ¬ link.entity_id = entity_id),
      entities := p.entities.filter (fun e => ¬ e.id = entity_id),
      modified := true }
  else p

/-- `Project.get_entity`: dict lookup by id. -/
def Project.get_entity (p : Project) (entity_id : String) : Option Entity :=
  p.entities.find? (fun e => e.id = entity_id)

/-- `Project.get_all_entities`. -/
def Project.get_all_entities (p : Project) : List Entity :=
  p.entities

/-- `Project.add_association`. -/
def Project.add_association (p : Project) (assoc : Association) : Project :=
  { p with associations := dictInsert Association.id p.associations assoc, modified := true }

/-- `Project.remove_association`: when the association exists, delete every
link whose `association_id` references it, then the association itself. -/
def Project.remove_association (p : Project) (association_id : String) : Project :=
  if p.associations.any (fun a => a.id = association_id) then
    { p with
      links := p.links.filter (fun link => ¬ link.association_id = association_id),
      associations := p.associations.filter (fun a => ¬ a.id = association_id),
      modified := true }
  else p

/-- `Project.get_all_associations`. -/
def Project.get_all_associations (p : Project) : List Association :=
  p.associations

/-- `Project.add_link`: a plain dict insert, with no check that the
referenced entity or association exists. -/
def Project.add_link (p : Project) (link : Link) : Project :=
  { p with links := dictInsert Link.id p.links link, modified := true }

/-- `Project.remove_link`. -/
def Project.remove_link (p : Project) (link_id : String) : Project :=
  if p.links.any (fun l => l.id = link_id) then
    { p with links := p.links.filter (fun l => ¬ l.id = link_id), modified := true }
  else p

/-- `Project.get_links_for_entity`. -/
def Project.get_links_for_entity (p : Project) (entity_id : String) : List Link :=
  p.links.filter (fun link => link.entity_id = entity_id)

/-- `Project.get_links_for_association`. -/
def Project.get_links_for_association (p : Project) (association_id : String) : List Link :=
  p.links.filter (fun link => link.association_id = association_id)

/-- `Project.set_mld_column_name`: store the new name under
`table_name ++ "." ++ original_name` iff it is non-empty and differs from the
original; otherwise delete any entry under that key. -/
def Project.set_mld_column_name (p : Project) (table_name original_name new_name : String) :
    Project :=
  let key := table_name ++ "." ++ original_name
  if new_name ≠ "" ∧ new_name ≠ original_name then
    { p with
      mld_column_overrides := dictInsert Prod.fst p.mld_column_overrides (key, new_name),
      modified := true }
  else if p.mld_column_overrides.any (fun kv => kv.1 = key) then
    { p with
      mld_column_overrides := p.mld_column_overrides.filter (fun kv => ¬ kv.1 = key),
      modified := true }
  else { p with modified := true }

/-- `Project.get_mld_column_name`: the stored override for the key, or the
original name when none is stored. -/
def Project.get_mld_column_name (p : Project) (table_name original_name : String) : String :=
  let key := table_name ++ "." ++ original_name
  match p.mld_column_overrides.find? (fun kv => kv.1 = key) with
  | some kv => kv.2
  | none => original_name

/-- `models/dictionary.py` : `Dictionary`, a dict from attribute name to
attribute (the key always equals the stored attribute's name). -/
structure Dictionary where
  attributes : List Attribute := []
deriving DecidableEq

/-- `Dictionary.add_attribute`: refuse (returning `false` and the unchanged
dictionary) when the name is already present, else append. -/
def Dictionary.add_attribute (d : Dictionary) (attr : Attribute) : Bool × Dictionary :=
  if d.attributes.any (fun a => a.name = attr.name) then (false, d)
  else (true, ⟨d.attributes ++ [attr]⟩)

/-- `Dictionary.update_attribute`: refuse when `old_name` is absent, or when
the new name differs from `old_name` and collides with an existing entry;
else delete the old entry and append the new one (a Python dict re-insert
after delete goes to the end). -/
def Dictionary.update_attribute (d : Dictionary) (old_name : String) (attr : Attribute) :
    Bool × Dictionary :=
  if ¬ d.attributes.any (fun a => a.name = old_name) then (false, d)
  else if old_name ≠ attr.name ∧ d.attributes.any (fun a => a.name = attr.name) then
    (false, d)
  else (true, ⟨d.attributes.filter (fun a => ¬ a.name = old_name) ++ [attr]⟩)

/-- `controllers/mcd_controller.py` : `MCDController.validate`, the four
structural rules, each evaluated over the whole model, diagnostics
concatenated in rule order. -/
def MCDController.validate (p : Project) : List String :=
  let entities := p.get_all_entities
  (if entities.isEmpty then ["No entities defined. Add at least one entity."] else [])
  ++ entities.filterMap (fun entity =>
      if entity.attributes.any (fun attr => attr.is_primary_key) then none
      else some ("Entity '" ++ entity.name ++ "' has no primary key attribute."))
  ++ p.get_all_associations.filterMap (fun assoc =>
      if (p.get_links_for_association assoc.id).length < 2 then
        some ("Association '" ++ assoc.name ++ "' must be connected to at least 2 entities.")
      else none)
  ++ p.get_all_entities.filterMap (fun entity =>
      if (p.get_links_for_entity entity.id).length = 0 then
        some ("Entity '" ++ entity.name ++ "' is not connected to any association.")
      else none)

/-- `models/mld.py` : `MLDColumn`. -/
structure MLDColumn where
  name : String
  data_type : String
  is_primary_key : Bool := false
  is_foreign_key : Bool := false
  references_table : Option String := none
  references_column : Option String := none
  is_nullable : Bool := true
deriving DecidableEq

/-- `models/mld.py` : `MLDTable`. -/
structure MLDTable where
  name : String
  columns : List MLDColumn := []
  source_type : String := "entity"
  source_id : Option String := none
deriving DecidableEq

/-- `MLDTable.get_primary_keys`. -/
def MLDTable.get_primary_keys (t : MLDTable) : List MLDColumn :=
  t.columns.filter (fun col => col.is_primary_key)

namespace MLDTransformer

/-- `MLDTransformer._safe_name`: lower-case, spaces and hyphens to
underscores, every other non-alphanumeric non-underscore character dropped.
The two `replace` calls of the source search for the single characters " "
and "-", so they are one character-by-character substitution; `Char.toLower`
and `Char.isAlphanum` cover the ASCII range of Python's `str.lower` and
`str.isalnum`. -/
def safe_name (name : String) : String :=
  let lower := name.data.map Char.toLower
  let safe := lower.map (fun c => if c = ' ' ∨ c = '-' then '_' else c)
  ⟨safe.filter (fun c => c.isAlphanum ∨ c = '_')⟩

/-- `MLDTransformer._transform_entity`: one table per entity, one column per
attribute, primary-key flag copied, nullable iff not primary key. -/
def transform_entity (entity : Entity) : MLDTable :=
  { name := safe_name entity.name
    source_type := "entity"
    source_id := some entity.id
    columns := entity.attributes.map (fun attr =>
      { name := safe_name attr.name
        data_type := attr.get_sql_type
        is_primary_key := attr.is_primary_key
        is_nullable := ¬ attr.is_primary_key }) }

/-- The body of `_create_junction_table`'s link loop: when the linked entity
resolves, one primary-and-foreign-key column per primary-key attribute of
that entity; a link whose entity does not resolve contributes nothing. -/
def junctionLinkColumns (p : Project) (link : Link) : List MLDColumn :=
  match p.get_entity link.entity_id with
  | some entity =>
    entity.get_primary_keys.map (fun pk_attr =>
      { name := "fk_" ++ safe_name entity.name ++ "_" ++ pk_attr.name
        data_type := pk_attr.get_sql_type
        is_primary_key := true
        is_foreign_key := true
        references_table := some (safe_name entity.name)
        references_column := some (safe_name pk_attr.name)
        is_nullable := false })
  | none => []

/-- `MLDTransformer._create_junction_table`: for every link whose entity
resolves, one primary-and-foreign-key column per primary-key attribute of
that entity, then one nullable non-key column per carrying attribute. -/
def create_junction_table (p : Project) (assoc : Association) (links : List Link) : MLDTable :=
  { name := safe_name assoc.name
    source_type := "association"
    source_id := some assoc.id
    columns :=
      links.flatMap (junctionLinkColumns p)
      ++ assoc.attributes.map (fun attr =>
        { name := safe_name attr.name
          data_type := attr.get_sql_type
          is_primary_key := false
          is_nullable := true }) }

/-- `MLDTransformer._transform_association`: no table when fewer than 2
links; a junction table when at least 2 links have maximum cardinality "N"
or the association owns carrying attributes; no table otherwise. -/
def transform_association (p : Project) (assoc : Association) : Option MLDTable :=
  let links := p.get_links_for_association assoc.id
  if links.length < 2 then none
  else
    let n_links := links.filter (fun link => link.cardinality_max = "N")
    if n_links.length ≥ 2 ∨ assoc.has_attributes then
      some (create_junction_table p assoc links)
    else none

/-- The Python `entity_tables` dict maps an entity-table `source_id` to the
table object, later tables winning; a mutation through it edits the last
matching table of the list.  `updateFirst` edits the first match, and the
dict update is `updateFirst` over the reversed list. -/
def updateFirst (q : MLDTable → Bool) (f : MLDTable → MLDTable) : List MLDTable → List MLDTable
  | [] => []
  | t :: ts => if q t then f t :: ts else t :: updateFirst q f ts

/-- Whether `t` is the logical table lowered from the entity with id `eid`. -/
def isEntityTable (eid : String) (t : MLDTable) : Bool :=
  t.source_type = "entity" ∧ t.source_id = some eid

/-- The duplicate check and append of `_add_foreign_keys`' innermost loop:
append `column` unless a column with the same name is already on the table. -/
def appendColIfAbsent (column : MLDColumn) (table : MLDTable) : MLDTable :=
  if table.columns.any (fun c => c.name = column.name) then table
  else { table with columns := table.columns ++ [column] }

/-- Append `column` to the entity table for `eid` (the last matching table,
as the Python dict references it) unless a column with the same name is
already on that table. -/
def tryAddColumn (ts : List MLDTable) (eid : String) (column : MLDColumn) : List MLDTable :=
  (updateFirst (isEntityTable eid) (appendColIfAbsent column) ts.reverse).reverse

/-- The foreign-key column `_add_foreign_keys` builds for the "1"-side link
`link` and one primary-key attribute of the "N"-side entity. -/
def fkColumn (other_entity : Entity) (pk_attr : Attribute) (link : Link) : MLDColumn :=
  { name := "fk_" ++ safe_name other_entity.name ++ "_" ++ pk_attr.name
    data_type := pk_attr.get_sql_type
    is_primary_key := false
    is_foreign_key := true
    references_table := some (safe_name other_entity.name)
    references_column := some (safe_name pk_attr.name)
    is_nullable := link.cardinality_min = "0" }

/-- The body of `_add_foreign_keys`' innermost loop: one other link of the
same association; guarded on a distinct entity on the "N" side that
resolves, and on the "1"-side entity having a table. -/
def addFkForOtherLink (p : Project) (entity : Entity) (link : Link)
    (ts : List MLDTable) (other_link : Link) : List MLDTable :=
  if other_link.entity_id ≠ entity.id ∧ other_link.cardinality_max = "N" then
    match p.get_entity other_link.entity_id with
    | some other_entity =>
      if ts.any (isEntityTable entity.id) then
        other_entity.get_primary_keys.foldl
          (fun ts2 pk_attr => tryAddColumn ts2 entity.id (fkColumn other_entity pk_attr link))
          ts
      else ts
    | none => ts
  else ts

/-- The body of `_add_foreign_keys`' middle loop: one link of the current
entity, firing only when the current entity is on the "1" side. -/
def addFkForLink (p : Project) (entity : Entity) (ts : List MLDTable) (link : Link) :
    List MLDTable :=
  if link.cardinality_max = "1" then
    (p.get_links_for_association link.association_id).foldl (addFkForOtherLink p entity link) ts
  else ts

/-- `MLDTransformer._add_foreign_keys`: over every entity and each of its
links, propagate the "N"-side primary keys onto the "1"-side entity table. -/
def add_foreign_keys (p : Project) (tables : List MLDTable) : List MLDTable :=
  p.get_all_entities.foldl
    (fun ts entity => (p.get_links_for_entity entity.id).foldl (addFkForLink p entity) ts)
    tables

/-- The tables as they stand before foreign-key propagation: entity tables in
entity order, then the junction tables in association order. -/
def baseTables (p : Project) : List MLDTable :=
  p.get_all_entities.map transform_entity
    ++ p.get_all_associations.filterMap (transform_association p)

/-- `MLDTransformer.transform`: entity tables, then junction tables, then
foreign-key propagation. -/
def transform (p : Project) : List MLDTable :=
  add_foreign_keys p (baseTables p)

/-- A table's identifying signature: everything but the columns.
Foreign-key propagation only ever appends columns, so it preserves this. -/
def tsig (t : MLDTable) : String × String × Option String :=
  (t.name, t.source_type, t.source_id)

/-- The column `_add_foreign_keys` may append to the table with source id
`sid` on behalf of the association `aid`: there is a "1"-side link `L` of an
existing entity `E` with that source id, and another link `Lo` of the same
association on the "N" side whose entity `Eo` exists and differs, and the
column is the foreign key for one of `Eo`'s primary-key attributes. -/
def FkProvenance (p : Project) (sid : Option String) (aid : String) (c : MLDColumn) : Prop :=
  ∃ E L Lo Eo a,
    E ∈ p.entities ∧ sid = some E.id ∧
    L ∈ p.links ∧ L.entity_id = E.id ∧ L.cardinality_max = "1" ∧ L.association_id = aid ∧
    Lo ∈ p.links ∧ Lo.association_id = aid ∧ Lo.entity_id ≠ E.id ∧ Lo.cardinality_max = "N" ∧
    p.get_entity Lo.entity_id = some Eo ∧ a ∈ Eo.get_primary_keys ∧
    c = fkColumn Eo a L

/-- How `_add_foreign_keys` relates an input table to the corresponding
output table: the signature is unchanged and the columns are the input
columns followed by appended foreign keys, each with a provenance as above,
each with a name that occurs exactly once on the final table (the duplicate
check), and appended only to entity tables. -/
def tableExtended (p : Project) (t t' : MLDTable) : Prop :=
  t'.name = t.name ∧ t'.source_type = t.source_type ∧ t'.source_id = t.source_id ∧
  ∃ extra, t'.columns = t.columns ++ extra ∧
    (∀ c ∈ extra, (∃ aid, FkProvenance p t'.source_id aid c) ∧
      (t'.columns.map MLDColumn.name).count c.name = 1) ∧
    (extra = [] ∨ t.source_type = "entity")

/-- Whether the entity table for `eid` (the last matching table, as the
Python `entity_tables` dict resolves it) carries a column named `nm`. -/
def hasCol (ts : List MLDTable) (eid nm : String) : Bool :=
  match ts.reverse.find? (isEntityTable eid) with
  | some t => t.columns.any (fun c => c.name = nm)
  | none => false

/-- The project with the entity-dangling links (links whose `entity_id`
resolves to no existing entity) removed. -/
def dropDanglingLinks (p : Project) : Project :=
  { p with links := p.links.filter (fun link => (p.get_entity link.entity_id).isSome) }

/-- The junction-table key column the spec describes for one linked entity
and one of its primary-key attributes: primary and foreign key, not
nullable, referencing the sanitized entity table and attribute. -/
def junctionFkColumn (entity : Entity) (pk_attr : Attribute) : MLDColumn :=
  { name := "fk_" ++ safe_name entity.name ++ "_" ++ pk_attr.name
    data_type := pk_attr.get_sql_type
    is_primary_key := true
    is_foreign_key := true
    references_table := some (safe_name entity.name)
    references_column := some (safe_name pk_attr.name)
    is_nullable := false }

/-- The junction-table column the spec describes for one carrying attribute:
nullable and not part of any key. -/
def carryingColumn (attr : Attribute) : MLDColumn :=
  { name := safe_name attr.name
    data_type := attr.get_sql_type
    is_primary_key := false
    is_foreign_key := false
    references_table := none
    references_column := none
    is_nullable := true }

/-- The spec's composite junction key: for every link of the association in
link order and every primary-key attribute of the linked entity (when it
resolves), the corresponding key column. -/
def junctionKeyColumns (p : Project) (assoc : Association) : List MLDColumn :=
  (p.get_links_for_association assoc.id).flatMap (fun link =>
    match p.get_entity link.entity_id with
    | some entity => entity.get_primary_keys.map (junctionFkColumn entity)
    | none => [])

end MLDTransformer

/-- One mutation of the `Project` aggregate through its public API. -/
inductive MutationOp where
  | addEntity (e : Entity)
  | removeEntity (id : String)
  | addAssociation (a : Association)
  | removeAssociation (id : String)
  | addLink (l : Link)
  | removeLink (id : String)

/-- Apply one mutation. -/
def applyOp (p : Project) : MutationOp → Project
  | .addEntity e => p.add_entity e
  | .removeEntity i => p.remove_entity i
  | .addAssociation a => p.add_association a
  | .removeAssociation i => p.remove_association i
  | .addLink l => p.add_link l
  | .removeLink i => p.remove_link i

/-- Apply a sequence of mutations in order. -/
def applyOps (p : Project) (ops : List MutationOp) : Project :=
  ops.foldl applyOp p

/-- Referential integrity: every link references a present entity and a
present association. -/
def linksOk (p : Project) : Bool :=
  p.links.all (fun link =>
    p.entities.any (fun e => e.id = link.entity_id) &&
    p.associations.any (fun a => a.id = link.association_id))

/-- Whether one mutation respects the referential discipline in state `p`:
a link may only be added when both its endpoints are present (the code does
not check this; every other mutation is unconditionally fine). -/
def opValid (p : Project) : MutationOp → Bool
  | .addLink l =>
      p.entities.any (fun e => e.id = l.entity_id) &&
      p.associations.any (fun a => a.id = l.association_id)
  | _ => true

/-- Whether a whole sequence of mutations respects the discipline, each in
the state it actually runs in. -/
def opsValid (p : Project) : List MutationOp → Bool
  | [] => true
  | op :: rest => opValid p op && opsValid (applyOp p op) rest

/-! Concrete models used by witnesses and counterexamples (the entities and
cardinalities of the spec's section-8 scenarios). -/

/-- Entity `Client` with primary key `id_client`. -/
def wClient : Entity :=
  { name := "Client"
    attributes := [{ name := "id_client", data_type := "INT", is_primary_key := true }]
    id := "E1" }

/-- Entity `Commande` with primary key `id_commande`. -/
def wCommande : Entity :=
  { name := "Commande"
    attributes := [{ name := "id_commande", data_type := "INT", is_primary_key := true }]
    id := "E2" }

/-- Association `Passer` without carrying attributes. -/
def wPasser : Association := { name := "Passer", id := "A1" }

/-- Link `Client (0,N) Passer`. -/
def wLinkClientN : Link :=
  { entity_id := "E1", association_id := "A1"
    cardinality_min := "0", cardinality_max := "N", id := "L1" }

/-- Link `Commande (1,1) Passer`. -/
def wLinkCommande1 : Link :=
  { entity_id := "E2", association_id := "A1"
    cardinality_min := "1", cardinality_max := "1", id := "L2" }

/-- The spec's 1-to-N scenario: `Client (0,N) - Passer - (1,1) Commande`. -/
def wProjPasser : Project :=
  { entities := [wClient, wCommande]
    associations := [wPasser]
    links := [wLinkClientN, wLinkCommande1] }

/-- Association `Concerner` carrying `quantite`. -/
def wConcerner : Association :=
  { name := "Concerner"
    attributes := [{ name := "quantite", data_type := "INT" }]
    id := "A2" }

/-- Link `Client (0,N) Concerner`. -/
def wLinkConcClient : Link :=
  { entity_id := "E1", association_id := "A2"
    cardinality_min := "0", cardinality_max := "N", id := "L3" }

/-- Link `Commande (1,N) Concerner`. -/
def wLinkConcCommande : Link :=
  { entity_id := "E2", association_id := "A2"
    cardinality_min := "1", cardinality_max := "N", id := "L4" }

/-- The spec's N-N scenario: both links of `Concerner` have maximum "N". -/
def wProjConcerner : Project :=
  { entities := [wClient, wCommande]
    associations := [wConcerner]
    links := [wLinkConcClient, wLinkConcCommande] }

/-- Association `Porter` carrying `q`: the junction-table condition holds via
the carrying attribute although only one link is on the "N" side. -/
def cexPorter : Association :=
  { name := "Porter"
    attributes := [{ name := "q", data_type := "INT" }]
    id := "A3" }

/-- Link `Client (0,N) Porter`. -/
def cexLinkPorterN : Link :=
  { entity_id := "E1", association_id := "A3"
    cardinality_min := "0", cardinality_max := "N", id := "L5" }

/-- Link `Commande (0,1) Porter`. -/
def cexLinkPorter1 : Link :=
  { entity_id := "E2", association_id := "A3"
    cardinality_min := "0", cardinality_max := "1", id := "L6" }

/-- A model where one association gets a junction table (it carries `q`) and
also has a "1"-side / "N"-side pair of links. -/
def cexProjPorter : Project :=
  { entities := [wClient, wCommande]
    associations := [cexPorter]
    links := [cexLinkPorterN, cexLinkPorter1] }

/-- A link both of whose endpoint ids resolve to nothing. -/
def cexGhostLink : Link :=
  { entity_id := "ghost_e", association_id := "ghost_a", id := "L0" }

/-- A project holding only the dangling link (reachable via `add_link`). -/
def cexProjGhost : Project := { links := [cexGhostLink] }

/-! ### Generic fold helpers -/

theorem foldl_congr_funs {α β : Type} (g g' : β → α → β) (l : List α) (s : β)
    (h : ∀ s x, x ∈ l → g s x = g' s x) : l.foldl g s = l.foldl g' s := by
  induction l generalizing s with
  | nil => rfl
  | cons x xs ih =>
    rw [List.foldl_cons, List.foldl_cons, h s x (List.mem_cons_self _ _)]
    exact ih _ (fun s y hy => h s y (List.mem_cons_of_mem _ hy))

theorem foldl_filter_id {α β : Type} (g : β → α → β) (q : α → Bool) (l : List α) (s : β)
    (h : ∀ s x, x ∈ l → q x = false → g s x = s) :
    (l.filter q).foldl g s = l.foldl g s := by
  induction l generalizing s with
  | nil => rfl
  | cons x xs ih =>
    by_cases hq : q x
    · simp only [List.filter_cons, hq, if_pos, List.foldl_cons]
      exact ih _ (fun s y hy => h s y (List.mem_cons_of_mem _ hy))
    · have hq' : q x = false := by simpa using hq
      have hgx : g s x = s := h s x (List.mem_cons_self _ _) hq'
      simp only [List.filter_cons, hq', Bool.false_eq_true, if_neg, List.foldl_cons,
        not_false_iff, hgx]
      exact ih _ (fun s y hy => h s y (List.mem_cons_of_mem _ hy))

theorem flatMap_filter_id {α β : Type} (f : α → List β) (q : α → Bool) (l : List α)
    (h : ∀ x ∈ l, q x = false → f x = []) :
    (l.filter q).flatMap f = l.flatMap f := by
  induction l with
  | nil => rfl
  | cons x xs ih =>
    by_cases hq : q x
    · simp only [List.filter_cons, hq, if_pos, List.flatMap_cons]
      rw [ih (fun y hy => h y (List.mem_cons_of_mem _ hy))]
    · have hq' : q x = false := by simpa using hq
      have hx : f x = [] := h x (List.mem_cons_self _ _) hq'
      simp only [List.filter_cons, hq', Bool.false_eq_true, if_neg, List.flatMap_cons, hx,
        List.nil_append, not_false_iff]
      exact ih (fun y hy => h y (List.mem_cons_of_mem _ hy))

namespace MLDTransformer

/-! ### Facts about the one-table update helpers -/

theorem tsig_appendColIfAbsent (c : MLDColumn) (t : MLDTable) :
    tsig (appendColIfAbsent c t) = tsig t := by
  unfold appendColIfAbsent
  by_cases h : t.columns.any (fun x => x.name = c.name) <;> simp [h, tsig]

theorem isEntityTable_appendColIfAbsent (eid : String) (c : MLDColumn) (t : MLDTable) :
    isEntityTable eid (appendColIfAbsent c t) = isEntityTable eid t := by
  unfold appendColIfAbsent
  by_cases h : t.columns.any (fun x => x.name = c.name) <;> simp [h, isEntityTable]

theorem any_name_appendColIfAbsent_mono (nm : String) (c : MLDColumn) (t : MLDTable)
    (h : t.columns.any (fun x => x.name = nm) = true) :
    (appendColIfAbsent c t).columns.any (fun x => x.name = nm) = true := by
  unfold appendColIfAbsent
  by_cases hp : t.columns.any (fun x => x.name = c.name) <;> simp [hp, List.any_append, h]

theorem any_name_appendColIfAbsent_self (c : MLDColumn) (t : MLDTable) :
    (appendColIfAbsent c t).columns.any (fun x => x.name = c.name) = true := by
  unfold appendColIfAbsent
  by_cases hp : t.columns.any (fun x => x.name = c.name) <;> simp [hp, List.any_append]

theorem updateFirst_map_tsig (q : MLDTable → Bool) (f : MLDTable → MLDTable)
    (hf : ∀ t, tsig (f t) = tsig t) (l : List MLDTable) :
    (updateFirst q f l).map tsig = l.map tsig := by
  induction l with
  | nil => rfl
  | cons t ts ih =>
    by_cases h : q t
    · simp [updateFirst, h, hf]
    · simp [updateFirst, h, ih]

theorem updateFirst_forall2 {R : MLDTable → MLDTable → Prop} (q : MLDTable → Bool)
    (f : MLDTable → MLDTable) (hf : ∀ a b, R a b → q b = true → R a (f b))
    {l₀ l : List MLDTable} (h : List.Forall₂ R l₀ l) :
    List.Forall₂ R l₀ (updateFirst q f l) := by
  induction h with
  | nil => exact List.Forall₂.nil
  | @cons a b l₀' l' hab htail ih =>
    by_cases hq : q b
    · simpa [updateFirst, hq] using List.Forall₂.cons (hf a b hab hq) htail
    · simpa [updateFirst, hq] using List.Forall₂.cons hab ih

theorem find?_updateFirst_self (q : MLDTable → Bool) (f : MLDTable → MLDTable)
    (hq : ∀ t, q (f t) = q t) (l : List MLDTable) (t : MLDTable)
    (h : l.find? q = some t) : (updateFirst q f l).find? q = some (f t) := by
  induction l with
  | nil => cases h
  | cons a l ih =>
    by_cases hqa : q a
    · have hat : a = t := by simpa [List.find?, hqa] using h
      rw [← hat]
      simp [updateFirst, hqa, List.find?, hq a]
    · have h' : l.find? q = some t := by simpa [List.find?, hqa] using h
      have hqa' : q a = false := by simpa using hqa
      simp [updateFirst, hqa', List.find?, ih h']

theorem find?_updateFirst_mono (q q' : MLDTable → Bool) (f : MLDTable → MLDTable) (nm : String)
    (hq : ∀ t, q (f t) = q t)
    (hmono : ∀ t, t.columns.any (fun c => c.name = nm) = true →
       (f t).columns.any (fun c => c.name = nm) = true)
    (l : List MLDTable) (t : MLDTable) (h : l.find? q = some t) :
    ∃ t', (updateFirst q' f l).find? q = some t' ∧
      (t.columns.any (fun c => c.name = nm) = true →
       t'.columns.any (fun c => c.name = nm) = true) := by
  induction l with
  | nil => cases h
  | cons a l ih =>
    by_cases hq' : q' a
    · by_cases hqa : q a
      · have hat : a = t := by simpa [List.find?, hqa] using h
        refine ⟨f a, ?_, ?_⟩
        · simp [updateFirst, hq', List.find?, hq a, hqa]
        · rw [← hat]; exact hmono a
      · have h' : l.find? q = some t := by simpa [List.find?, hqa] using h
        have hqfa : q (f a) = false := by rw [hq a]; simpa using hqa
        refine ⟨t, ?_, fun hh => hh⟩
        simp [updateFirst, hq', List.find?, hqfa, h']
    · by_cases hqa : q a
      · have hat : a = t := by simpa [List.find?, hqa] using h
        refine ⟨t, ?_, fun hh => hh⟩
        have hq'' : q' a = false := by simpa using hq'
        rw [hat] at hq'' hqa
        rw [hat]
        simp [updateFirst, hq'', List.find?, hqa]
      · have h' : l.find? q = some t := by simpa [List.find?, hqa] using h
        obtain ⟨t', ht', hmono'⟩ := ih h'
        have hq'' : q' a = false := by simpa using hq'
        have hqa' : q a = false := by simpa using hqa
        exact ⟨t', by simp [updateFirst, hq'', List.find?, hqa', ht'], hmono'⟩

/-! ### Specialised fold lemmas for the foreign-key pass -/

theorem foldl_map_tsig {α : Type} (g : List MLDTable → α → List MLDTable) :
    ∀ (l : List α) (s : List MLDTable), (∀ s x, x ∈ l → (g s x).map tsig = s.map tsig) →
      (l.foldl g s).map tsig = s.map tsig
  | [], _, _ => rfl
  | x :: xs, s, h => by
    rw [List.foldl_cons,
      foldl_map_tsig g xs (g s x) (fun s y hy => h s y (List.mem_cons_of_mem _ hy)),
      h s x (List.mem_cons_self _ _)]

theorem foldl_hasCol_mono {α : Type} (g : List MLDTable → α → List MLDTable) (eid nm : String) :
    ∀ (l : List α) (s : List MLDTable),
      (∀ s x, x ∈ l → hasCol s eid nm = true → hasCol (g s x) eid nm = true) →
      hasCol s eid nm = true → hasCol (l.foldl g s) eid nm = true
  | [], _, _, h0 => h0
  | x :: xs, s, h, h0 =>
    foldl_hasCol_mono g eid nm xs (g s x) (fun s y hy => h s y (List.mem_cons_of_mem _ hy))
      (h s x (List.mem_cons_self _ _) h0)

theorem foldl_forall2 {α : Type} {p : Project} (g : List MLDTable → α → List MLDTable)
    (l₀ : List MLDTable) :
    ∀ (l : List α) (s : List MLDTable),
      (∀ s x, x ∈ l → List.Forall₂ (tableExtended p) l₀ s →
        List.Forall₂ (tableExtended p) l₀ (g s x)) →
      List.Forall₂ (tableExtended p) l₀ s → List.Forall₂ (tableExtended p) l₀ (l.foldl g s)
  | [], _, _, h0 => h0
  | x :: xs, s, h, h0 =>
    foldl_forall2 g l₀ xs (g s x) (fun s y hy => h s y (List.mem_cons_of_mem _ hy))
      (h s x (List.mem_cons_self _ _) h0)

/-! ### Signature preservation of the foreign-key pass -/

theorem map_tsig_tryAddColumn (ts : List MLDTable) (eid : String) (c : MLDColumn) :
    (tryAddColumn ts eid c).map tsig = ts.map tsig := by
  unfold tryAddColumn
  rw [List.map_reverse, updateFirst_map_tsig _ _ (tsig_appendColIfAbsent c), List.map_reverse,
    List.reverse_reverse]

theorem any_comp_map {α β : Type} (f : α → β) (p : β → Bool) (l : List α) :
    (l.map f).any p = l.any (fun x => p (f x)) := by
  induction l with
  | nil => rfl
  | cons x xs ih => simp [ih]

theorem any_isEntityTable_eq_of_map_tsig {ts ts' : List MLDTable} (e : String)
    (h : ts.map tsig = ts'.map tsig) :
    ts.any (isEntityTable e) = ts'.any (isEntityTable e) := by
  have h1 : ts.any (isEntityTable e) =
      (ts.map tsig).any (fun s => decide (s.2.1 = "entity" ∧ s.2.2 = some e)) :=
    (any_comp_map tsig (fun s => decide (s.2.1 = "entity" ∧ s.2.2 = some e)) ts).symm
  have h2 : ts'.any (isEntityTable e) =
      (ts'.map tsig).any (fun s => decide (s.2.1 = "entity" ∧ s.2.2 = some e)) :=
    (any_comp_map tsig (fun s => decide (s.2.1 = "entity" ∧ s.2.2 = some e)) ts').symm
  rw [h1, h, ← h2]

theorem anyET_tryAddColumn (ts : List MLDTable) (eid : String) (c : MLDColumn) (e : String) :
    (tryAddColumn ts eid c).any (isEntityTable e) = ts.any (isEntityTable e) :=
  any_isEntityTable_eq_of_map_tsig e (map_tsig_tryAddColumn ts eid c)

theorem map_tsig_addFkForOtherLink (p : Project) (entity : Entity) (link : Link)
    (ts : List MLDTable) (other : Link) :
    (addFkForOtherLink p entity link ts other).map tsig = ts.map tsig := by
  unfold addFkForOtherLink
  split
  · split
    · split
      · exact foldl_map_tsig _ _ _ (fun s pk _ => map_tsig_tryAddColumn s entity.id _)
      · rfl
    · rfl
  · rfl

theorem map_tsig_addFkForLink (p : Project) (entity : Entity) (ts : List MLDTable) (link : Link) :
    (addFkForLink p entity ts link).map tsig = ts.map tsig := by
  unfold addFkForLink
  by_cases h1 : link.cardinality_max = "1"
  · rw [if_pos h1]
    exact foldl_map_tsig _ _ _ (fun s o _ => map_tsig_addFkForOtherLink p entity link s o)
  · rw [if_neg h1]

theorem map_tsig_entityStep (p : Project) (entity : Entity) (ts : List MLDTable) :
    ((p.get_links_for_entity entity.id).foldl (addFkForLink p entity) ts).map tsig =
      ts.map tsig :=
  foldl_map_tsig _ _ _ (fun s link _ => map_tsig_addFkForLink p entity s link)

theorem map_tsig_add_foreign_keys (p : Project) (ts : List MLDTable) :
    (add_foreign_keys p ts).map tsig = ts.map tsig := by
  unfold add_foreign_keys
  exact foldl_map_tsig _ _ _ (fun s entity _ => map_tsig_entityStep p entity s)

/-! ### Soundness of the foreign-key pass: every output table extends the
corresponding input table by provenance-carrying foreign keys only -/

theorem isEntityTable_eq_true_iff (eid : String) (t : MLDTable) :
    isEntityTable eid t = true ↔ (t.source_type = "entity" ∧ t.source_id = some eid) := by
  simp [isEntityTable]

theorem tableExtended_refl (p : Project) (t : MLDTable) : tableExtended p t t :=
  ⟨rfl, rfl, rfl, [], by simp, by simp, Or.inl rfl⟩

theorem tableExtended_appendColIfAbsent {p : Project} {a b : MLDTable} {c : MLDColumn}
    {eid : String}
    (hst : b.source_type = "entity") (hsid : b.source_id = some eid)
    (hprov : ∃ aid, FkProvenance p (some eid) aid c)
    (hR : tableExtended p a b) :
    tableExtended p a (appendColIfAbsent c b) := by
  obtain ⟨hn, hs, hid, extra, hcols, hext, hty⟩ := hR
  by_cases hpresent : b.columns.any (fun x => x.name = c.name) = true
  · unfold appendColIfAbsent
    rw [if_pos hpresent]
    exact ⟨hn, hs, hid, extra, hcols, hext, hty⟩
  · have hpres' : b.columns.any (fun x => x.name = c.name) = false := by
      simpa using hpresent
    have hnotmem : c.name ∉ b.columns.map MLDColumn.name := by
      intro hmem
      obtain ⟨x, hx, hxe⟩ := List.mem_map.mp hmem
      have hx2 : b.columns.any (fun x => x.name = c.name) = true :=
        List.any_eq_true.mpr ⟨x, hx, by simp [hxe]⟩
      simp [hx2] at hpres'
    unfold appendColIfAbsent
    rw [if_neg hpresent]
    refine ⟨hn, hs, hid, extra ++ [c], ?_, ?_, Or.inr (hs.symm.trans hst)⟩
    · show b.columns ++ [c] = a.columns ++ (extra ++ [c])
      rw [hcols, List.append_assoc]
    · intro c' hc'
      have hnames : ({ b with columns := b.columns ++ [c] } : MLDTable).columns.map
          MLDColumn.name = b.columns.map MLDColumn.name ++ [c.name] := by
        simp
      rcases List.mem_append.mp hc' with hmem | hmem
      · obtain ⟨⟨aid, hprov'⟩, hcount⟩ := hext c' hmem
        refine ⟨⟨aid, hprov'⟩, ?_⟩
        rw [hnames, List.count_append]
        have hne : c'.name ≠ c.name := by
          intro he
          apply hnotmem
          rw [← he]
          exact List.count_pos_iff.mp (by rw [hcount]; exact Nat.one_pos)
        have : List.count c'.name [c.name] = 0 := by
          rw [List.count_eq_zero]
          simp [hne]
        rw [hcount, this]
      · have hcc : c' = c := by simpa using hmem
        subst hcc
        obtain ⟨aid, hprov'⟩ := hprov
        refine ⟨⟨aid, ?_⟩, ?_⟩
        · have : ({ b with columns := b.columns ++ [c'] } : MLDTable).source_id = some eid :=
            hsid
          rw [this]
          exact hprov'
        · rw [hnames, List.count_append]
          have h0 : List.count c'.name (b.columns.map MLDColumn.name) = 0 :=
            List.count_eq_zero.mpr hnotmem
          rw [h0]
          simp

theorem forall2_tryAddColumn {p : Project} {l₀ ts : List MLDTable} {eid : String}
    {c : MLDColumn} (hprov : ∃ aid, FkProvenance p (some eid) aid c)
    (h : List.Forall₂ (tableExtended p) l₀ ts) :
    List.Forall₂ (tableExtended p) l₀ (tryAddColumn ts eid c) := by
  unfold tryAddColumn
  have h1 : List.Forall₂ (tableExtended p) l₀.reverse ts.reverse :=
    List.forall₂_reverse_iff.mpr h
  have hf : ∀ a b, tableExtended p a b → isEntityTable eid b = true →
      tableExtended p a (appendColIfAbsent c b) := by
    intro a b hab hq
    obtain ⟨hst, hsid⟩ := (isEntityTable_eq_true_iff eid b).mp hq
    exact tableExtended_appendColIfAbsent hst hsid hprov hab
  have h2 := updateFirst_forall2 (isEntityTable eid) (appendColIfAbsent c) hf h1
  have h3 := List.forall₂_reverse_iff.mpr h2
  simpa using h3

theorem forall2_addFkForOtherLink {p : Project} {l₀ : List MLDTable} {entity : Entity}
    {link : Link} (hent : entity ∈ p.entities) (hlink : link ∈ p.links)
    (hle : link.entity_id = entity.id) (h1 : link.cardinality_max = "1")
    {ts : List MLDTable} {other : Link} (hother : other ∈ p.links)
    (hoa : other.association_id = link.association_id)
    (h : List.Forall₂ (tableExtended p) l₀ ts) :
    List.Forall₂ (tableExtended p) l₀ (addFkForOtherLink p entity link ts other) := by
  unfold addFkForOtherLink
  split
  · rename_i hg
    split
    · rename_i oe hge
      split
      · refine foldl_forall2 _ _ _ _ ?_ h
        intro s pk hpk hs
        refine forall2_tryAddColumn ⟨link.association_id, ?_⟩ hs
        exact ⟨entity, link, other, oe, pk, hent, rfl, hlink, hle, h1, rfl, hother, hoa,
          hg.1, hg.2, hge, hpk, rfl⟩
      · exact h
    · exact h
  · exact h

theorem forall2_addFkForLink {p : Project} {l₀ : List MLDTable} {entity : Entity}
    (hent : entity ∈ p.entities) {ts : List MLDTable} {link : Link}
    (hlink : link ∈ p.links) (hle : link.entity_id = entity.id)
    (h : List.Forall₂ (tableExtended p) l₀ ts) :
    List.Forall₂ (tableExtended p) l₀ (addFkForLink p entity ts link) := by
  unfold addFkForLink
  by_cases h1 : link.cardinality_max = "1"
  · rw [if_pos h1]
    refine foldl_forall2 _ _ _ _ ?_ h
    intro s other hother hs
    have hmem := List.mem_filter.mp hother
    exact forall2_addFkForOtherLink hent hlink hle h1 hmem.1 (by simpa using hmem.2) hs
  · rw [if_neg h1]; exact h

theorem forall2_entityStep {p : Project} {l₀ : List MLDTable} {entity : Entity}
    (hent : entity ∈ p.entities) {ts : List MLDTable}
    (h : List.Forall₂ (tableExtended p) l₀ ts) :
    List.Forall₂ (tableExtended p) l₀
      ((p.get_links_for_entity entity.id).foldl (addFkForLink p entity) ts) := by
  refine foldl_forall2 _ _ _ _ ?_ h
  intro s link hlink hs
  have hmem := List.mem_filter.mp hlink
  exact forall2_addFkForLink hent hmem.1 (by simpa using hmem.2) hs

theorem add_foreign_keys_sound (p : Project) (ts : List MLDTable) :
    List.Forall₂ (tableExtended p) ts (add_foreign_keys p ts) := by
  unfold add_foreign_keys
  refine foldl_forall2 _ _ _ _ ?_ (List.forall₂_same.mpr (fun t _ => tableExtended_refl p t))
  intro s entity hent hs
  exact forall2_entityStep hent hs

theorem forall2_tableExtended_map_tsig {p : Project} {l l' : List MLDTable}
    (h : List.Forall₂ (tableExtended p) l l') : l.map tsig = l'.map tsig := by
  induction h with
  | nil => rfl
  | @cons a b l₀ l₁ hab htail ih =>
    have hsig : tsig b = tsig a := by
      simp [tsig, hab.1, hab.2.1, hab.2.2.1]
    simp [hsig, ih]

/-! ### Presence: the foreign-key pass really places the propagated column -/

theorem hasCol_of_find?_some {ts : List MLDTable} {eid nm : String} {t : MLDTable}
    (hfind : ts.reverse.find? (isEntityTable eid) = some t) :
    hasCol ts eid nm = t.columns.any (fun c => c.name = nm) := by
  unfold hasCol
  rw [hfind]

theorem hasCol_of_find?_none {ts : List MLDTable} {eid nm : String}
    (hfind : ts.reverse.find? (isEntityTable eid) = none) :
    hasCol ts eid nm = false := by
  unfold hasCol
  rw [hfind]

theorem hasCol_mono_tryAddColumn {ts : List MLDTable} {eid nm : String} (eid' : String)
    (c : MLDColumn) (h : hasCol ts eid nm = true) :
    hasCol (tryAddColumn ts eid' c) eid nm = true := by
  cases hfind : ts.reverse.find? (isEntityTable eid) with
  | none => rw [hasCol_of_find?_none hfind] at h; cases h
  | some t =>
    rw [hasCol_of_find?_some hfind] at h
    obtain ⟨t', ht', hmono⟩ := find?_updateFirst_mono (isEntityTable eid) (isEntityTable eid')
      (appendColIfAbsent c) nm (isEntityTable_appendColIfAbsent eid c)
      (any_name_appendColIfAbsent_mono nm c) ts.reverse t hfind
    have hsel : (tryAddColumn ts eid' c).reverse.find? (isEntityTable eid) = some t' := by
      unfold tryAddColumn
      rw [List.reverse_reverse]
      exact ht'
    rw [hasCol_of_find?_some hsel]
    exact hmono h

theorem hasCol_fire_tryAddColumn {ts : List MLDTable} {eid : String} (c : MLDColumn)
    (hany : ts.any (isEntityTable eid) = true) :
    hasCol (tryAddColumn ts eid c) eid c.name = true := by
  have hany' : ts.reverse.any (isEntityTable eid) = true := by
    rw [List.any_reverse]; exact hany
  obtain ⟨t, ht⟩ : ∃ t, ts.reverse.find? (isEntityTable eid) = some t := by
    cases hfind : ts.reverse.find? (isEntityTable eid) with
    | some t => exact ⟨t, rfl⟩
    | none =>
      rw [List.find?_eq_none] at hfind
      obtain ⟨x, hx, hq⟩ := List.any_eq_true.mp hany'
      exact absurd hq (hfind x hx)
  have hsel : (tryAddColumn ts eid c).reverse.find? (isEntityTable eid) =
      some (appendColIfAbsent c t) := by
    unfold tryAddColumn
    rw [List.reverse_reverse]
    exact find?_updateFirst_self _ _ (isEntityTable_appendColIfAbsent eid c) _ _ ht
  rw [hasCol_of_find?_some hsel]
  exact any_name_appendColIfAbsent_self c t

theorem hasCol_mono_addFkForOtherLink {p : Project} {entity : Entity} {link : Link}
    {ts : List MLDTable} {other : Link} {eid nm : String}
    (h : hasCol ts eid nm = true) :
    hasCol (addFkForOtherLink p entity link ts other) eid nm = true := by
  unfold addFkForOtherLink
  split
  · split
    · split
      · exact foldl_hasCol_mono _ _ _ _ _
          (fun s pk _ hs => hasCol_mono_tryAddColumn _ _ hs) h
      · exact h
    · exact h
  · exact h

theorem hasCol_mono_addFkForLink {p : Project} {entity : Entity} {ts : List MLDTable}
    {link : Link} {eid nm : String} (h : hasCol ts eid nm = true) :
    hasCol (addFkForLink p entity ts link) eid nm = true := by
  unfold addFkForLink
  split
  · exact foldl_hasCol_mono _ _ _ _ _
      (fun s o _ hs => hasCol_mono_addFkForOtherLink hs) h
  · exact h

theorem hasCol_mono_entityStep {p : Project} {entity : Entity} {ts : List MLDTable}
    {eid nm : String} (h : hasCol ts eid nm = true) :
    hasCol ((p.get_links_for_entity entity.id).foldl (addFkForLink p entity) ts) eid nm =
      true :=
  foldl_hasCol_mono _ _ _ _ _ (fun _ _ _ hs => hasCol_mono_addFkForLink hs) h

theorem anyET_addFkForOtherLink (p : Project) (entity : Entity) (link : Link)
    (ts : List MLDTable) (other : Link) (e : String) :
    (addFkForOtherLink p entity link ts other).any (isEntityTable e) =
      ts.any (isEntityTable e) :=
  any_isEntityTable_eq_of_map_tsig e (map_tsig_addFkForOtherLink p entity link ts other)

theorem anyET_addFkForLink (p : Project) (entity : Entity) (ts : List MLDTable) (link : Link)
    (e : String) :
    (addFkForLink p entity ts link).any (isEntityTable e) = ts.any (isEntityTable e) :=
  any_isEntityTable_eq_of_map_tsig e (map_tsig_addFkForLink p entity ts link)

theorem anyET_entityStep (p : Project) (entity : Entity) (ts : List MLDTable) (e : String) :
    ((p.get_links_for_entity entity.id).foldl (addFkForLink p entity) ts).any
      (isEntityTable e) = ts.any (isEntityTable e) :=
  any_isEntityTable_eq_of_map_tsig e (map_tsig_entityStep p entity ts)

theorem foldl_hasCol_est {α : Type} (g : List MLDTable → α → List MLDTable) (x : α)
    (eid nm : String)
    (hInv : ∀ s y, s.any (isEntityTable eid) = true → (g s y).any (isEntityTable eid) = true)
    (hQmono : ∀ s y, hasCol s eid nm = true → hasCol (g s y) eid nm = true)
    (hQest : ∀ s, s.any (isEntityTable eid) = true → hasCol (g s x) eid nm = true) :
    ∀ (l : List α) (s : List MLDTable), x ∈ l → s.any (isEntityTable eid) = true →
      hasCol (l.foldl g s) eid nm = true
  | [], _, hx, _ => absurd hx (List.not_mem_nil x)
  | y :: ys, s, hx, h0 => by
    rcases List.mem_cons.mp hx with rfl | hx'
    · exact foldl_hasCol_mono g eid nm ys (g s x) (fun s z _ hs => hQmono s z hs) (hQest s h0)
    · exact foldl_hasCol_est g x eid nm hInv hQmono hQest ys (g s y) hx' (hInv s y h0)

theorem hasCol_fire_addFkForOtherLink {p : Project} {entity : Entity} {link : Link}
    {other : Link} {oe : Entity} {a : Attribute}
    (hg1 : other.entity_id ≠ entity.id) (hgN : other.cardinality_max = "N")
    (hge : p.get_entity other.entity_id = some oe) (ha : a ∈ oe.get_primary_keys)
    {ts : List MLDTable} (hany : ts.any (isEntityTable entity.id) = true) :
    hasCol (addFkForOtherLink p entity link ts other) entity.id
      (fkColumn oe a link).name = true := by
  unfold addFkForOtherLink
  rw [if_pos ⟨hg1, hgN⟩, hge]
  show hasCol (if ts.any (isEntityTable entity.id) then
      oe.get_primary_keys.foldl
        (fun ts2 pk_attr => tryAddColumn ts2 entity.id (fkColumn oe pk_attr link)) ts
    else ts) entity.id (fkColumn oe a link).name = true
  rw [if_pos hany]
  refine foldl_hasCol_est _ a entity.id _ ?_ ?_ ?_ _ _ ha hany
  · intro s pk hs
    rw [anyET_tryAddColumn]
    exact hs
  · intro s pk hs
    exact hasCol_mono_tryAddColumn _ _ hs
  · intro s hs
    exact hasCol_fire_tryAddColumn _ hs

theorem hasCol_fire_addFkForLink {p : Project} {entity : Entity} {link other : Link}
    {oe : Entity} {a : Attribute}
    (h1 : link.cardinality_max = "1")
    (hother : other ∈ p.get_links_for_association link.association_id)
    (hg1 : other.entity_id ≠ entity.id) (hgN : other.cardinality_max = "N")
    (hge : p.get_entity other.entity_id = some oe) (ha : a ∈ oe.get_primary_keys)
    {ts : List MLDTable} (hany : ts.any (isEntityTable entity.id) = true) :
    hasCol (addFkForLink p entity ts link) entity.id (fkColumn oe a link).name = true := by
  unfold addFkForLink
  rw [if_pos h1]
  refine foldl_hasCol_est _ other entity.id _ ?_ ?_ ?_ _ _ hother hany
  · intro s o hs
    rw [anyET_addFkForOtherLink]
    exact hs
  · intro s o hs
    exact hasCol_mono_addFkForOtherLink hs
  · intro s hs
    exact hasCol_fire_addFkForOtherLink hg1 hgN hge ha hs

theorem hasCol_fire_entityStep {p : Project} {entity : Entity} {link other : Link}
    {oe : Entity} {a : Attribute}
    (hlink : link ∈ p.get_links_for_entity entity.id)
    (h1 : link.cardinality_max = "1")
    (hother : other ∈ p.get_links_for_association link.association_id)
    (hg1 : other.entity_id ≠ entity.id) (hgN : other.cardinality_max = "N")
    (hge : p.get_entity other.entity_id = some oe) (ha : a ∈ oe.get_primary_keys)
    {ts : List MLDTable} (hany : ts.any (isEntityTable entity.id) = true) :
    hasCol ((p.get_links_for_entity entity.id).foldl (addFkForLink p entity) ts) entity.id
      (fkColumn oe a link).name = true := by
  refine foldl_hasCol_est _ link entity.id _ ?_ ?_ ?_ _ _ hlink hany
  · intro s l hs
    rw [anyET_addFkForLink]
    exact hs
  · intro s l hs
    exact hasCol_mono_addFkForLink hs
  · intro s hs
    exact hasCol_fire_addFkForLink h1 hother hg1 hgN hge ha hs

theorem hasCol_fire_add_foreign_keys {p : Project} {entity : Entity} {link other : Link}
    {oe : Entity} {a : Attribute}
    (hent : entity ∈ p.entities)
    (hlink : link ∈ p.get_links_for_entity entity.id)
    (h1 : link.cardinality_max = "1")
    (hother : other ∈ p.get_links_for_association link.association_id)
    (hg1 : other.entity_id ≠ entity.id) (hgN : other.cardinality_max = "N")
    (hge : p.get_entity other.entity_id = some oe) (ha : a ∈ oe.get_primary_keys)
    {ts : List MLDTable} (hany : ts.any (isEntityTable entity.id) = true) :
    hasCol (add_foreign_keys p ts) entity.id (fkColumn oe a link).name = true := by
  unfold add_foreign_keys
  refine foldl_hasCol_est _ entity entity.id _ ?_ ?_ ?_ _ _ hent hany
  · intro s e hs
    rw [anyET_entityStep]
    exact hs
  · intro s e hs
    exact hasCol_mono_entityStep hs
  · intro s hs
    exact hasCol_fire_entityStep hlink h1 hother hg1 hgN hge ha hs

theorem baseTables_anyET {p : Project} {entity : Entity} (hent : entity ∈ p.entities) :
    (baseTables p).any (isEntityTable entity.id) = true := by
  unfold baseTables
  rw [List.any_append, Bool.or_eq_true]
  left
  exact List.any_eq_true.mpr ⟨transform_entity entity,
    List.mem_map.mpr ⟨entity, hent, rfl⟩, by simp [isEntityTable, transform_entity]⟩

/-- C2: for every link `L` whose entity `E` is on the "1" side and every
other link `Lo` of the same association whose entity `Eo` differs and is on
the "N" side, `transform` places on `E`'s table one foreign-key column named
`fk_<sanitized Eo name>_<attribute name>` per primary-key attribute of `Eo`;
moreover every column the foreign-key pass adds to any table carries such a
provenance — it is `fkColumn Eo a L` (foreign key, not primary key,
referencing the sanitized table and column, nullable iff the "1"-side link's
minimum cardinality is "0") — and its name occurs exactly once on the final
table, so a column whose name is already present is never added again. -/
theorem fk_propagation_correct (p : Project) (E : Entity) (L Lo : Link) (Eo : Entity)
    (hent : E ∈ p.entities) (hL : L ∈ p.links) (hLe : L.entity_id = E.id)
    (hL1 : L.cardinality_max = "1") (hLo : Lo ∈ p.links)
    (hoa : Lo.association_id = L.association_id) (hne : Lo.entity_id ≠ E.id)
    (hoN : Lo.cardinality_max = "N") (hEo : p.get_entity Lo.entity_id = some Eo) :
    (∀ a ∈ Eo.get_primary_keys,
      hasCol (transform p) E.id ("fk_" ++ safe_name Eo.name ++ "_" ++ a.name) = true)
    ∧ List.Forall₂ (tableExtended p) (baseTables p) (transform p) := by
  constructor
  · intro a ha
    have hlink : L ∈ p.get_links_for_entity E.id :=
      List.mem_filter.mpr ⟨hL, by simp [hLe]⟩
    have hother : Lo ∈ p.get_links_for_association L.association_id :=
      List.mem_filter.mpr ⟨hLo, by simp [hoa]⟩
    exact hasCol_fire_add_foreign_keys hent hlink hL1 hother hne hoN hEo ha
      (baseTables_anyET hent)
  · exact add_foreign_keys_sound p (baseTables p)

/-- Witness for C2 at the spec's scenario `Client (0,N) - Passer - (1,1)
Commande`: the `commande` table receives `fk_client_id_client`. -/
theorem fk_propagation_correct_witness :
    (∀ a ∈ wClient.get_primary_keys,
      hasCol (transform wProjPasser) wCommande.id
        ("fk_" ++ safe_name wClient.name ++ "_" ++ a.name) = true)
    ∧ List.Forall₂ (tableExtended wProjPasser) (baseTables wProjPasser)
        (transform wProjPasser) :=
  fk_propagation_correct wProjPasser wCommande wLinkCommande1 wLinkClientN wClient
    (by decide) (by decide) (by decide) (by decide) (by decide) (by decide) (by decide)
    (by decide) (by decide)

theorem has_attributes_iff (a : Association) :
    a.has_attributes = true ↔ a.attributes ≠ [] := by
  simp [Association.has_attributes, List.length_pos]

theorem transform_association_some_iff (p : Project) (a : Association) :
    (transform_association p a).isSome = true ↔
      (2 ≤ (p.get_links_for_association a.id).length ∧
       (2 ≤ ((p.get_links_for_association a.id).filter
          (fun link => link.cardinality_max = "N")).length ∨ a.attributes ≠ [])) := by
  unfold transform_association
  by_cases hlen : (p.get_links_for_association a.id).length < 2
  · simp only [hlen, if_pos, Option.isSome_none, Bool.false_eq_true, false_iff]
    rintro ⟨h2, -⟩
    omega
  · rw [if_neg hlen]
    by_cases hcond : ((p.get_links_for_association a.id).filter
        (fun link => link.cardinality_max = "N")).length ≥ 2 ∨ a.has_attributes
    · rw [if_pos hcond]
      simp only [Option.isSome_some, true_iff]
      refine ⟨by omega, ?_⟩
      rcases hcond with h | h
      · exact Or.inl h
      · exact Or.inr ((has_attributes_iff a).mp h)
    · rw [if_neg hcond]
      simp only [Option.isSome_none, Bool.false_eq_true, false_iff]
      rintro ⟨-, h | h⟩
      · exact hcond (Or.inl h)
      · exact hcond (Or.inr ((has_attributes_iff a).mpr h))

theorem transform_association_eq {p : Project} {a : Association} {t : MLDTable}
    (h : transform_association p a = some t) :
    t = create_junction_table p a (p.get_links_for_association a.id) := by
  unfold transform_association at h
  by_cases hlen : (p.get_links_for_association a.id).length < 2
  · simp [hlen] at h
  · rw [if_neg hlen] at h
    by_cases hcond : ((p.get_links_for_association a.id).filter
        (fun link => link.cardinality_max = "N")).length ≥ 2 ∨ a.has_attributes
    · rw [if_pos hcond] at h
      exact (Option.some.inj h).symm
    · rw [if_neg hcond] at h
      cases h

theorem transform_association_fields {p : Project} {a : Association} {t : MLDTable}
    (h : transform_association p a = some t) :
    t.source_type = "association" ∧ t.source_id = some a.id := by
  rw [transform_association_eq h]
  exact ⟨rfl, rfl⟩

theorem exists_assoc_table_transfer {l l' : List MLDTable} (i : String)
    (he : l.map tsig = l'.map tsig)
    (h : ∃ t ∈ l, t.source_type = "association" ∧ t.source_id = some i) :
    ∃ t ∈ l', t.source_type = "association" ∧ t.source_id = some i := by
  obtain ⟨t, ht, h1, h2⟩ := h
  have hmem : tsig t ∈ l'.map tsig := he ▸ List.mem_map_of_mem tsig ht
  obtain ⟨t', ht', hts⟩ := List.mem_map.mp hmem
  have h21 : t'.source_type = t.source_type :=
    congrArg (fun s : String × String × Option String => s.2.1) hts
  have h22 : t'.source_id = t.source_id :=
    congrArg (fun s : String × String × Option String => s.2.2) hts
  exact ⟨t', ht', h21.trans h1, h22.trans h2⟩

/-- C1: `transform` emits a junction table for an association iff the
association has at least 2 links and at least 2 of them have maximum
cardinality "N" or the association owns a carrying attribute; with fewer
than 2 links no table is emitted (and, the transformer being a total
function, no error is raised). -/
theorem junction_table_emitted_iff (p : Project) (a : Association)
    (ha : a ∈ p.associations) (hnodup : (p.associations.map Association.id).Nodup) :
    (∃ t ∈ transform p, t.source_type = "association" ∧ t.source_id = some a.id)
    ↔ (2 ≤ (p.get_links_for_association a.id).length ∧
       (2 ≤ ((p.get_links_for_association a.id).filter
          (fun link => link.cardinality_max = "N")).length ∨ a.attributes ≠ [])) := by
  have hsig : (baseTables p).map tsig = (transform p).map tsig :=
    forall2_tableExtended_map_tsig (add_foreign_keys_sound p (baseTables p))
  rw [← transform_association_some_iff]
  constructor
  · intro h
    have hbase := exists_assoc_table_transfer a.id hsig.symm h
    obtain ⟨t, ht, h1, h2⟩ := hbase
    unfold baseTables at ht
    rcases List.mem_append.mp ht with hentity | hassoc
    · obtain ⟨e, _, rfl⟩ := List.mem_map.mp hentity
      simp [transform_entity] at h1
    · obtain ⟨a', ha', hta'⟩ := List.mem_filterMap.mp hassoc
      have hfields := transform_association_fields hta'
      have hid : a'.id = a.id := by
        have := hfields.2.symm.trans h2
        exact Option.some.inj this
      have haa : a' = a := List.inj_on_of_nodup_map hnodup ha' ha hid
      rw [← haa, hta']
      rfl
  · intro h
    obtain ⟨t, ht⟩ := Option.isSome_iff_exists.mp h
    have hfields := transform_association_fields ht
    refine exists_assoc_table_transfer a.id hsig ?_
    exact ⟨t, List.mem_append_right _ (List.mem_filterMap.mpr ⟨a, ha, ht⟩),
      hfields.1, hfields.2⟩

/-- Witness for C1 at the spec's `Concerner` scenario: both links have
maximum "N", so the junction table is emitted. -/
theorem junction_table_emitted_iff_witness :
    (∃ t ∈ transform wProjConcerner,
        t.source_type = "association" ∧ t.source_id = some wConcerner.id)
    ↔ (2 ≤ (wProjConcerner.get_links_for_association wConcerner.id).length ∧
       (2 ≤ ((wProjConcerner.get_links_for_association wConcerner.id).filter
          (fun link => link.cardinality_max = "N")).length ∨ wConcerner.attributes ≠ [])) :=
  junction_table_emitted_iff wProjConcerner wConcerner (by decide) (by decide)

theorem junctionKeyColumns_primary (p : Project) (a : Association) :
    ∀ c ∈ junctionKeyColumns p a, c.is_primary_key = true := by
  intro c hc
  unfold junctionKeyColumns at hc
  obtain ⟨link, _, hcl⟩ := List.mem_flatMap.mp hc
  cases hge : p.get_entity link.entity_id with
  | none => rw [hge] at hcl; cases hcl
  | some e =>
    rw [hge] at hcl
    obtain ⟨pk, _, rfl⟩ := List.mem_map.mp hcl
    rfl

theorem tableExtended_eq_of_not_entity {p : Project} {a b : MLDTable}
    (h : tableExtended p a b) (hne : a.source_type ≠ "entity") : b = a := by
  obtain ⟨hn, hs, hid, extra, hcols, _, hty⟩ := h
  rcases hty with h0 | hent
  · subst h0
    rw [List.append_nil] at hcols
    cases a with
    | mk an ac ast asid =>
      cases b with
      | mk bn bc bst bsid =>
        rw [MLDTable.mk.injEq]
        exact ⟨hn, hcols, hs, hid⟩
  · exact absurd hent hne

theorem filter_assoc_of_forall2 {p : Project} {l l' : List MLDTable}
    (h : List.Forall₂ (tableExtended p) l l') :
    l'.filter (fun tb => tb.source_type = "association")
      = l.filter (fun tb => tb.source_type = "association") := by
  induction h with
  | nil => rfl
  | @cons a b l₀ l₁ hab _ ih =>
    by_cases hst : a.source_type = "association"
    · have hba : b = a := tableExtended_eq_of_not_entity hab (by rw [hst]; decide)
      subst hba
      simp [List.filter_cons, hst, ih]
    · have hbst : ¬ b.source_type = "association" := by
        rw [hab.2.1]; exact hst
      simp only [List.filter_cons]
      rw [if_neg (by simpa using hbst), if_neg (by simpa using hst)]
      exact ih

/-- C3: whenever `transform` emits a junction table, its columns are exactly
one primary-and-foreign-key, non-nullable column per link of the association
(in link order) and per primary-key attribute of the linked entity, named
`fk_<sanitized entity name>_<attribute name>` and referencing the sanitized
entity table and attribute — so the composite primary key of the junction
table is exactly that union of connected entities' keys — followed by one
nullable, non-key column per carrying attribute; the foreign-key pass leaves
association tables untouched, so the junction tables `transform` returns are
exactly those built by `transform_association`. -/
theorem junction_table_columns_spec (p : Project) (a : Association) (t : MLDTable)
    (h : transform_association p a = some t) :
    t.columns = junctionKeyColumns p a ++ a.attributes.map carryingColumn
    ∧ t.get_primary_keys = junctionKeyColumns p a
    ∧ (transform p).filter (fun tb => tb.source_type = "association")
        = (baseTables p).filter (fun tb => tb.source_type = "association") := by
  have hcols : t.columns = junctionKeyColumns p a ++ a.attributes.map carryingColumn := by
    rw [transform_association_eq h]
    rfl
  refine ⟨hcols, ?_, ?_⟩
  · unfold MLDTable.get_primary_keys
    rw [hcols, List.filter_append]
    have h1 : (junctionKeyColumns p a).filter (fun col => col.is_primary_key)
        = junctionKeyColumns p a :=
      List.filter_eq_self.mpr (fun c hc => by
        simp [junctionKeyColumns_primary p a c hc])
    have h2 : (a.attributes.map carryingColumn).filter (fun col => col.is_primary_key)
        = [] := by
      rw [List.filter_eq_nil_iff]
      intro c hc
      obtain ⟨attr, _, rfl⟩ := List.mem_map.mp hc
      simp [carryingColumn]
    rw [h1, h2, List.append_nil]
  · exact filter_assoc_of_forall2 (add_foreign_keys_sound p (baseTables p))

/-- Witness for C3 at the `Concerner` scenario: the junction table holds the
two key columns and the nullable `quantite` column. -/
theorem junction_table_columns_spec_witness :
    (create_junction_table wProjConcerner wConcerner
        (wProjConcerner.get_links_for_association wConcerner.id)).columns
      = junctionKeyColumns wProjConcerner wConcerner
          ++ wConcerner.attributes.map carryingColumn
    ∧ (create_junction_table wProjConcerner wConcerner
        (wProjConcerner.get_links_for_association wConcerner.id)).get_primary_keys
      = junctionKeyColumns wProjConcerner wConcerner
    ∧ (transform wProjConcerner).filter (fun tb => tb.source_type = "association")
        = (baseTables wProjConcerner).filter (fun tb => tb.source_type = "association") :=
  junction_table_columns_spec wProjConcerner wConcerner
    (create_junction_table wProjConcerner wConcerner
      (wProjConcerner.get_links_for_association wConcerner.id)) (by decide)

/-- C4 (amended): when a junction table is emitted for an association none of
whose links has maximum cardinality "1", the foreign-key pass contributes
nothing on behalf of that association: every appended column has its
provenance in some other association.  (The unamended claim is refuted by
`junction_no_extra_fk_counterexample`: a "1"-side / "N"-side pair fires step
3 even though the association also received a junction table.) -/
theorem junction_no_extra_fk_when_no_one_side (p : Project) (a : Association)
    (_ha_some : (transform_association p a).isSome = true)
    (hno1 : ∀ l ∈ p.get_links_for_association a.id, l.cardinality_max ≠ "1") :
    List.Forall₂ (fun t t' => ∃ extra, t'.columns = t.columns ++ extra ∧
      ∀ c ∈ extra, ∃ aid, aid ≠ a.id ∧ FkProvenance p t'.source_id aid c)
      (baseTables p) (transform p) := by
  have hs := add_foreign_keys_sound p (baseTables p)
  refine List.Forall₂.imp ?_ hs
  intro t t' hte
  obtain ⟨_, _, _, extra, hcols, hext, _⟩ := hte
  refine ⟨extra, hcols, ?_⟩
  intro c hc
  obtain ⟨⟨aid, hprov⟩, -⟩ := hext c hc
  refine ⟨aid, ?_, hprov⟩
  intro haid
  obtain ⟨E, L, Lo, Eo, at_, hE, hsid, hL, hLe, hL1, hLaid, hrest⟩ := hprov
  have hLmem : L ∈ p.get_links_for_association a.id :=
    List.mem_filter.mpr ⟨hL, by simp [hLaid, haid]⟩
  exact hno1 L hLmem hL1

/-- Counterexample to C4 as claimed: in `cexProjPorter` the association
`Porter` carries an attribute, so step 2 emits a junction table for it, yet
step 3 also appends `fk_client_id_client` to the `commande` table on behalf
of Porter's "1"-side / "N"-side pair of links (Porter is the only
association of the model). -/
theorem junction_no_extra_fk_counterexample :
    (transform_association cexProjPorter cexPorter).isSome = true
    ∧ (∃ t ∈ transform cexProjPorter, isEntityTable "E2" t = true ∧
        t.columns.any (fun c => c.name = "fk_client_id_client" ∧ c.is_foreign_key) = true)
    ∧ (∀ t ∈ baseTables cexProjPorter, isEntityTable "E2" t = true →
        t.columns.any (fun c => c.name = "fk_client_id_client") = false) := by
  decide

/-- Witness for the amended C4 at the pure N-N `Concerner` scenario. -/
theorem junction_no_extra_fk_when_no_one_side_witness :
    List.Forall₂ (fun t t' => ∃ extra, t'.columns = t.columns ++ extra ∧
      ∀ c ∈ extra, ∃ aid, aid ≠ wConcerner.id ∧
        FkProvenance wProjConcerner t'.source_id aid c)
      (baseTables wProjConcerner) (transform wProjConcerner) :=
  junction_no_extra_fk_when_no_one_side wProjConcerner wConcerner (by decide) (by decide)

/-! ### C10: links whose entity does not resolve are skipped -/

theorem filter_swap {α : Type} (p q : α → Bool) (l : List α) :
    (l.filter p).filter q = (l.filter q).filter p := by
  induction l with
  | nil => rfl
  | cons x xs ih =>
    by_cases hp : p x <;> by_cases hq : q x <;>
      simp [List.filter_cons, hp, hq, ih]

theorem glfe_dropDangling (p : Project) (e : Entity) (he : e ∈ p.entities) :
    (dropDanglingLinks p).get_links_for_entity e.id = p.get_links_for_entity e.id := by
  unfold dropDanglingLinks Project.get_links_for_entity
  rw [filter_swap]
  apply List.filter_eq_self.mpr
  intro x hx
  have hx' := List.mem_filter.mp hx
  have hent : x.entity_id = e.id := by simpa using hx'.2
  have hsome : (p.get_entity x.entity_id).isSome = true := by
    rw [hent]
    unfold Project.get_entity
    rw [List.find?_isSome]
    exact ⟨e, he, by simp⟩
  exact hsome

theorem glfa_dropDangling (p : Project) (aid : String) :
    (dropDanglingLinks p).get_links_for_association aid =
      (p.get_links_for_association aid).filter
        (fun link => (p.get_entity link.entity_id).isSome) := by
  unfold dropDanglingLinks Project.get_links_for_association
  exact filter_swap _ _ _

theorem addFkForOtherLink_skip (p : Project) (e : Entity) (lk : Link) (s : List MLDTable)
    (o : Link) (ho : (p.get_entity o.entity_id).isSome = false) :
    addFkForOtherLink p e lk s o = s := by
  have hnone : p.get_entity o.entity_id = none := by
    cases h : p.get_entity o.entity_id with
    | none => rfl
    | some y => rw [h] at ho; simp at ho
  unfold addFkForOtherLink
  by_cases hg : o.entity_id ≠ e.id ∧ o.cardinality_max = "N"
  · rw [if_pos hg, hnone]
  · rw [if_neg hg]

theorem addFkForOtherLink_dropDangling (p : Project) (e : Entity) (lk : Link)
    (s : List MLDTable) (o : Link) :
    addFkForOtherLink (dropDanglingLinks p) e lk s o = addFkForOtherLink p e lk s o := rfl

theorem addFkForLink_dropDangling (p : Project) (e : Entity) (s : List MLDTable) (lk : Link) :
    addFkForLink (dropDanglingLinks p) e s lk = addFkForLink p e s lk := by
  unfold addFkForLink
  by_cases h1 : lk.cardinality_max = "1"
  · rw [if_pos h1, if_pos h1, glfa_dropDangling]
    rw [foldl_congr_funs (addFkForOtherLink (dropDanglingLinks p) e lk)
      (addFkForOtherLink p e lk) _ _ (fun s o _ => addFkForOtherLink_dropDangling p e lk s o)]
    exact foldl_filter_id _ _ _ _ (fun s o _ ho => addFkForOtherLink_skip p e lk s o ho)
  · rw [if_neg h1, if_neg h1]

theorem add_foreign_keys_dropDangling (p : Project) (ts : List MLDTable) :
    add_foreign_keys (dropDanglingLinks p) ts = add_foreign_keys p ts := by
  unfold add_foreign_keys
  refine foldl_congr_funs _ _ _ _ ?_
  intro s e he
  rw [glfe_dropDangling p e he]
  exact foldl_congr_funs _ _ _ _ (fun s lk _ => addFkForLink_dropDangling p e s lk)

/-- C10: the transformer is a total function (every definition here is), and
links whose `entity_id` resolves to no existing entity are silently skipped:
they contribute no column to a junction table, and the foreign-key pass
computes the same result whether or not such links are in the model. -/
theorem transform_skips_dangling_links (p : Project) (a : Association) (ls : List Link)
    (ts : List MLDTable) :
    create_junction_table p a ls =
      create_junction_table p a (ls.filter (fun l => (p.get_entity l.entity_id).isSome))
    ∧ add_foreign_keys p ts = add_foreign_keys (dropDanglingLinks p) ts := by
  constructor
  · have hskip : ∀ x ∈ ls, ((p.get_entity x.entity_id).isSome) = false →
        junctionLinkColumns p x = [] := by
      intro x _ hx
      have hnone : p.get_entity x.entity_id = none := by
        cases h : p.get_entity x.entity_id with
        | none => rfl
        | some y => rw [h] at hx; simp at hx
      unfold junctionLinkColumns
      rw [hnone]
    unfold create_junction_table
    rw [flatMap_filter_id (junctionLinkColumns p) _ ls hskip]
  · exact (add_foreign_keys_dropDangling p ts).symm

end MLDTransformer

/-! ### C5: referential integrity under the mutation API -/

theorem mem_dictInsert {α : Type} (key : α → String) (l : List α) (x : α) {y : α}
    (hy : y ∈ dictInsert key l x) : y ∈ l ∨ y = x := by
  unfold dictInsert at hy
  split at hy
  · obtain ⟨z, hz, hzy⟩ := List.mem_map.mp hy
    by_cases he : key z = key x
    · right
      rw [← hzy]
      simp [he]
    · left
      rw [← hzy]
      simpa [he] using hz
  · rcases List.mem_append.mp hy with h | h
    · exact Or.inl h
    · exact Or.inr (by simpa using h)

theorem dictInsert_any_key {α : Type} (key : α → String) (l : List α) (x : α) (z : String)
    (h : l.any (fun y => key y = z) = true) :
    (dictInsert key l x).any (fun y => key y = z) = true := by
  unfold dictInsert
  split
  · obtain ⟨y, hy, hz⟩ := List.any_eq_true.mp h
    have hyz : key y = z := by simpa using hz
    refine List.any_eq_true.mpr
      ⟨if key y = key x then x else y, List.mem_map.mpr ⟨y, hy, rfl⟩, ?_⟩
    by_cases he : key y = key x
    · have hx : key x = z := he ▸ hyz
      simp only [if_pos he]
      simp [hx]
    · simp only [if_neg he]
      simp [hyz]
  · rw [List.any_append, Bool.or_eq_true]
    exact Or.inl h

theorem linksOk_applyOp {p : Project} {op : MutationOp} (h : linksOk p = true)
    (hv : opValid p op = true) : linksOk (applyOp p op) = true := by
  unfold linksOk at h ⊢
  rw [List.all_eq_true] at h ⊢
  cases op with
  | addEntity e =>
    intro l hl
    have hp := h l hl
    rw [Bool.and_eq_true] at hp
    rw [Bool.and_eq_true]
    exact ⟨dictInsert_any_key Entity.id p.entities e l.entity_id hp.1, hp.2⟩
  | removeEntity i =>
    intro l hl
    simp only [applyOp] at hl ⊢
    unfold Project.remove_entity at hl ⊢
    by_cases hc : p.entities.any (fun e => e.id = i) = true
    · rw [if_pos hc] at hl ⊢
      have hl' := List.mem_filter.mp hl
      have hne : ¬ l.entity_id = i := by simpa using hl'.2
      have hp := h l hl'.1
      rw [Bool.and_eq_true] at hp
      rw [Bool.and_eq_true]
      refine ⟨?_, hp.2⟩
      obtain ⟨e, he, hei⟩ := List.any_eq_true.mp hp.1
      have hei' : e.id = l.entity_id := by simpa using hei
      refine List.any_eq_true.mpr ⟨e, List.mem_filter.mpr ⟨he, ?_⟩, by simp [hei']⟩
      simp [hei', hne]
    · rw [if_neg hc] at hl ⊢
      exact h l hl
  | addAssociation a =>
    intro l hl
    have hp := h l hl
    rw [Bool.and_eq_true] at hp
    rw [Bool.and_eq_true]
    exact ⟨hp.1, dictInsert_any_key Association.id p.associations a l.association_id hp.2⟩
  | removeAssociation i =>
    intro l hl
    simp only [applyOp] at hl ⊢
    unfold Project.remove_association at hl ⊢
    by_cases hc : p.associations.any (fun a => a.id = i) = true
    · rw [if_pos hc] at hl ⊢
      have hl' := List.mem_filter.mp hl
      have hne : ¬ l.association_id = i := by simpa using hl'.2
      have hp := h l hl'.1
      rw [Bool.and_eq_true] at hp
      rw [Bool.and_eq_true]
      refine ⟨hp.1, ?_⟩
      obtain ⟨a, ha, hai⟩ := List.any_eq_true.mp hp.2
      have hai' : a.id = l.association_id := by simpa using hai
      refine List.any_eq_true.mpr ⟨a, List.mem_filter.mpr ⟨ha, ?_⟩, by simp [hai']⟩
      simp [hai', hne]
    · rw [if_neg hc] at hl ⊢
      exact h l hl
  | addLink lk =>
    intro l hl
    rcases mem_dictInsert Link.id p.links lk hl with hmem | rfl
    · exact h l hmem
    · exact hv
  | removeLink i =>
    intro l hl
    simp only [applyOp] at hl ⊢
    unfold Project.remove_link at hl ⊢
    by_cases hc : p.links.any (fun x => x.id = i) = true
    · rw [if_pos hc] at hl ⊢
      exact h l (List.mem_filter.mp hl).1
    · rw [if_neg hc] at hl ⊢
      exact h l hl

/-- C5 (amended): starting from a model whose links all reference present
members, any sequence of mutations through the Project API preserves the
invariant provided each `add_link` adds a link whose two endpoints exist at
that moment; cascade deletion keeps removals safe.  (The unamended claim —
the invariant holds after *any* sequence — is refuted by
`referential_integrity_counterexample`: the code's `add_link` performs no
existence check.) -/
theorem referential_integrity_preserved (p : Project) (ops : List MutationOp)
    (h0 : linksOk p = true) (hv : opsValid p ops = true) :
    linksOk (applyOps p ops) = true := by
  induction ops generalizing p with
  | nil => exact h0
  | cons op rest ih =>
    simp only [opsValid, Bool.and_eq_true] at hv
    exact ih (applyOp p op) (linksOk_applyOp h0 hv.1) hv.2

/-- Counterexample to C5 as claimed: adding a link whose endpoints do not
exist is accepted by `add_link` and leaves an observable dangling link. -/
theorem referential_integrity_counterexample :
    linksOk (applyOps { } [MutationOp.addLink cexGhostLink]) = false := by decide

/-- Witness for the amended C5: a valid build sequence ends with the
invariant intact. -/
theorem referential_integrity_preserved_witness :
    linksOk (applyOps { } [MutationOp.addEntity wClient, MutationOp.addAssociation wPasser,
      MutationOp.addLink wLinkClientN]) = true :=
  referential_integrity_preserved { } _ (by decide) (by decide)

/-! ### C6: the cascade is exact -/

/-- C6 (amended): when the removed entity (resp. association) is present,
`remove_entity` (resp. `remove_association`) deletes it together with
exactly the links referencing it, leaving every other entity, association,
link and column override unchanged; when the id is absent the call is a
complete no-op.  (The unamended "for every project state" claim is refuted
by `remove_cascade_exact_counterexample`: if the id is absent, a dangling
link carrying that id survives.) -/
theorem remove_cascade_exact (p : Project) (eid aid eid2 aid2 : String)
    (h1 : p.entities.any (fun e => e.id = eid) = true)
    (h2 : p.associations.any (fun a => a.id = aid) = true)
    (h3 : p.entities.any (fun e => e.id = eid2) = false)
    (h4 : p.associations.any (fun a => a.id = aid2) = false) :
    p.remove_entity eid = { p with
        entities := p.entities.filter (fun e => ¬ e.id = eid),
        links := p.links.filter (fun l => ¬ l.entity_id = eid),
        modified := true }
    ∧ p.remove_association aid = { p with
        associations := p.associations.filter (fun a => ¬ a.id = aid),
        links := p.links.filter (fun l => ¬ l.association_id = aid),
        modified := true }
    ∧ p.remove_entity eid2 = p
    ∧ p.remove_association aid2 = p := by
  refine ⟨?_, ?_, ?_, ?_⟩
  · unfold Project.remove_entity
    rw [if_pos h1]
  · unfold Project.remove_association
    rw [if_pos h2]
  · unfold Project.remove_entity
    rw [if_neg (by simp [h3])]
  · unfold Project.remove_association
    rw [if_neg (by simp [h4])]

/-- Counterexample to C6 as claimed: with a dangling link present and the
entity id absent, `remove_entity` removes nothing, although a link with that
`entity_id` exists. -/
theorem remove_cascade_exact_counterexample :
    (Project.remove_entity cexProjGhost "ghost_e").links ≠
      cexProjGhost.links.filter (fun l => ¬ l.entity_id = "ghost_e") := by decide

/-- Witness for the amended C6 on the `Passer` model. -/
theorem remove_cascade_exact_witness :
    wProjPasser.remove_entity "E1" = { wProjPasser with
        entities := wProjPasser.entities.filter (fun e => ¬ e.id = "E1"),
        links := wProjPasser.links.filter (fun l => ¬ l.entity_id = "E1"),
        modified := true }
    ∧ wProjPasser.remove_association "A1" = { wProjPasser with
        associations := wProjPasser.associations.filter (fun a => ¬ a.id = "A1"),
        links := wProjPasser.links.filter (fun l => ¬ l.association_id = "A1"),
        modified := true }
    ∧ wProjPasser.remove_entity "missing" = wProjPasser
    ∧ wProjPasser.remove_association "missing" = wProjPasser :=
  remove_cascade_exact wProjPasser "E1" "A1" "missing" "missing"
    (by decide) (by decide) (by decide) (by decide)

/-! ### C7: the validator -/

theorem filterMap_noneGuard_eq_nil {α β : Type} (P : α → Prop) [DecidablePred P] (m : α → β)
    (l : List α) :
    l.filterMap (fun x => if P x then none else some (m x)) = [] ↔ ∀ x ∈ l, P x := by
  rw [List.filterMap_eq_nil_iff]
  constructor
  · intro h x hx
    by_cases hp : P x
    · exact hp
    · have := h x hx
      rw [if_neg hp] at this
      cases this
  · intro h x hx
    rw [if_pos (h x hx)]

theorem filterMap_someGuard_eq_nil {α β : Type} (P : α → Prop) [DecidablePred P] (m : α → β)
    (l : List α) :
    l.filterMap (fun x => if P x then some (m x) else none) = [] ↔ ∀ x ∈ l, ¬ P x := by
  rw [List.filterMap_eq_nil_iff]
  constructor
  · intro h x hx hp
    have := h x hx
    rw [if_pos hp] at this
    cases this
  · intro h x hx
    rw [if_neg (h x hx)]

theorem length_filterMap_noneGuard {α β : Type} (P : α → Prop) [DecidablePred P] (m : α → β)
    (l : List α) :
    (l.filterMap (fun x => if P x then none else some (m x))).length =
      l.countP (fun x => !(decide (P x))) := by
  induction l with
  | nil => rfl
  | cons x xs ih =>
    by_cases hp : P x <;>
      simp [List.filterMap_cons, hp, ih, List.countP_cons]

theorem length_filterMap_someGuard {α β : Type} (P : α → Prop) [DecidablePred P] (m : α → β)
    (l : List α) :
    (l.filterMap (fun x => if P x then some (m x) else none)).length =
      l.countP (fun x => decide (P x)) := by
  induction l with
  | nil => rfl
  | cons x xs ih =>
    by_cases hp : P x <;>
      simp [List.filterMap_cons, hp, ih, List.countP_cons]

/-- C7: `validate` is a pure total function (by construction in this
embedding); it returns the empty list iff at least one entity exists, every
entity has a primary-key attribute, every association has at least 2 links
and every entity participates in at least one link; and it reports one
diagnostic per violation, all rules evaluated (no short-circuiting): its
length is the exact count of violations of the four rules. -/
theorem validate_spec (p : Project) :
    (MCDController.validate p = [] ↔
      (p.entities ≠ [] ∧
       (∀ e ∈ p.entities, ∃ attr ∈ e.attributes, attr.is_primary_key = true) ∧
       (∀ a ∈ p.associations, 2 ≤ (p.get_links_for_association a.id).length) ∧
       (∀ e ∈ p.entities, (p.get_links_for_entity e.id).length ≠ 0)))
    ∧ (MCDController.validate p).length =
        ((if p.entities.isEmpty then 1 else 0)
          + p.entities.countP (fun e => !(e.attributes.any (fun attr => attr.is_primary_key)))
          + p.associations.countP (fun a => decide ((p.get_links_for_association a.id).length < 2))
          + p.entities.countP (fun e => decide ((p.get_links_for_entity e.id).length = 0))) := by
  constructor
  · unfold MCDController.validate Project.get_all_entities Project.get_all_associations
    rw [List.append_eq_nil, List.append_eq_nil, List.append_eq_nil]
    constructor
    · rintro ⟨⟨⟨h1, h2⟩, h3⟩, h4⟩
      refine ⟨?_, ?_, ?_, ?_⟩
      · intro hnil
        rw [if_pos (by simp [hnil])] at h1
        cases h1
      · intro e he
        have := (filterMap_noneGuard_eq_nil _ _ _).mp h2 e he
        obtain ⟨attr, hattr, hpk⟩ := List.any_eq_true.mp this
        exact ⟨attr, hattr, by simpa using hpk⟩
      · intro a ha
        have := (filterMap_someGuard_eq_nil _ _ _).mp h3 a ha
        omega
      · intro e he
        exact (filterMap_someGuard_eq_nil _ _ _).mp h4 e he
    · rintro ⟨h1, h2, h3, h4⟩
      refine ⟨⟨⟨?_, ?_⟩, ?_⟩, ?_⟩
      · rw [if_neg (by simpa using h1)]
      · refine (filterMap_noneGuard_eq_nil _ _ _).mpr ?_
        intro e he
        obtain ⟨attr, hattr, hpk⟩ := h2 e he
        exact List.any_eq_true.mpr ⟨attr, hattr, by simpa using hpk⟩
      · refine (filterMap_someGuard_eq_nil _ _ _).mpr ?_
        intro a ha
        have := h3 a ha
        omega
      · exact (filterMap_someGuard_eq_nil _ _ _).mpr h4
  · unfold MCDController.validate Project.get_all_entities Project.get_all_associations
    rw [List.length_append, List.length_append, List.length_append,
      length_filterMap_noneGuard, length_filterMap_someGuard, length_filterMap_someGuard]
    have hif : (if p.entities.isEmpty then
        ["No entities defined. Add at least one entity."] else ([] : List String)).length =
        (if p.entities.isEmpty then 1 else 0) := by
      by_cases h : p.entities.isEmpty <;> simp [h]
    rw [hif]
    simp only [Bool.decide_eq_true]

/-! ### C8: the column-name override store -/

theorem find?_map_replace (k v : String) :
    ∀ (l : List (String × String)), l.any (fun y => y.1 = k) = true →
      (l.map (fun y => if y.1 = k then (k, v) else y)).find? (fun kv => kv.1 = k)
        = some (k, v)
  | [], h => by cases h
  | a :: l, h => by
    by_cases ha : a.1 = k
    · simp [List.find?, if_pos ha]
    · have h' : l.any (fun y => y.1 = k) = true := by
        have := List.any_eq_true.mp h
        obtain ⟨y, hy, hyk⟩ := this
        rcases List.mem_cons.mp hy with rfl | hy'
        · exact absurd (by simpa using hyk) ha
        · exact List.any_eq_true.mpr ⟨y, hy', hyk⟩
      simp only [List.map_cons, if_neg ha, List.find?]
      rw [show (decide (a.1 = k)) = false by simpa using ha]
      exact find?_map_replace k v l h'

theorem find?_append_of_none {α : Type} (q : α → Bool) :
    ∀ (l l₂ : List α), l.find? q = none → (l ++ l₂).find? q = l₂.find? q
  | [], _, _ => rfl
  | a :: l, l₂, h => by
    by_cases ha : q a
    · simp [List.find?, ha] at h
    · have ha' : q a = false := by simpa using ha
      simp only [List.find?, ha'] at h
      simp only [List.cons_append, List.find?, ha']
      exact find?_append_of_none q l l₂ h

theorem find?_filter_not_key (k : String) (l : List (String × String)) :
    (l.filter (fun kv => ¬ kv.1 = k)).find? (fun kv => kv.1 = k) = none := by
  rw [List.find?_eq_none]
  intro x hx
  have := (List.mem_filter.mp hx).2
  simpa using this

theorem find?_dictInsert_self (l : List (String × String)) (k v : String) :
    (dictInsert Prod.fst l (k, v)).find? (fun kv => kv.1 = k) = some (k, v) := by
  unfold dictInsert
  split
  · rename_i hc
    exact find?_map_replace k v l (by simpa using hc)
  · rename_i hc
    have hnone : l.find? (fun kv => kv.1 = k) = none := by
      rw [List.find?_eq_none]
      intro x hx hk
      exact hc (List.any_eq_true.mpr ⟨x, hx, hk⟩)
    rw [find?_append_of_none _ l [(k, v)] hnone]
    simp [List.find?]

/-- C8: `set` stores the new name under the key `table ++ "." ++ original`
iff it is non-empty and differs from the original, and otherwise removes any
entry under that key; `get` returns the stored override when one exists and
the original name otherwise; consequently `get` after `set(t,o,o)` returns
`o` — setting back to the original clears the override. -/
theorem override_store_spec (p : Project) (t o n : String) :
    ((p.set_mld_column_name t o n).mld_column_overrides.find?
        (fun kv => kv.1 = t ++ "." ++ o)
      = if n ≠ "" ∧ n ≠ o then some (t ++ "." ++ o, n) else none)
    ∧ (p.get_mld_column_name t o =
        match p.mld_column_overrides.find? (fun kv => kv.1 = t ++ "." ++ o) with
        | some kv => kv.2
        | none => o)
    ∧ ((p.set_mld_column_name t o o).get_mld_column_name t o = o) := by
  refine ⟨?_, rfl, ?_⟩
  · unfold Project.set_mld_column_name
    by_cases hc : n ≠ "" ∧ n ≠ o
    · rw [if_pos hc, if_pos hc]
      exact find?_dictInsert_self p.mld_column_overrides (t ++ "." ++ o) n
    · rw [if_neg hc, if_neg hc]
      by_cases hin : p.mld_column_overrides.any (fun kv => kv.1 = t ++ "." ++ o) = true
      · rw [if_pos hin]
        exact find?_filter_not_key (t ++ "." ++ o) p.mld_column_overrides
      · rw [if_neg hin]
        rw [List.find?_eq_none]
        intro x hx hk
        exact hin (List.any_eq_true.mpr ⟨x, hx, hk⟩)
  · unfold Project.set_mld_column_name
    have hc : ¬ (o ≠ "" ∧ o ≠ o) := by simp
    rw [if_neg hc]
    by_cases hin : p.mld_column_overrides.any (fun kv => kv.1 = t ++ "." ++ o) = true
    · rw [if_pos hin]
      unfold Project.get_mld_column_name
      dsimp only
      rw [find?_filter_not_key (t ++ "." ++ o) p.mld_column_overrides]
    · rw [if_neg hin]
      unfold Project.get_mld_column_name
      dsimp only
      have hfind : p.mld_column_overrides.find? (fun kv => kv.1 = t ++ "." ++ o) = none := by
        rw [List.find?_eq_none]
        intro x hx hk
        exact hin (List.any_eq_true.mpr ⟨x, hx, hk⟩)
      rw [hfind]

/-! ### C9: the dictionary rejects name collisions -/

/-- C9: `add_attribute` returns `false` and leaves the dictionary unchanged
when an attribute with the same name exists, and returns `true` appending
the attribute otherwise; `update_attribute` returns `false` and leaves the
dictionary unchanged when the old name is absent or when renaming collides
with a different existing attribute. -/
theorem dictionary_name_collision_spec (d : Dictionary) (a : Attribute) (old : String) :
    (d.attributes.any (fun x => x.name = a.name) = true → d.add_attribute a = (false, d))
    ∧ (d.attributes.any (fun x => x.name = a.name) = false →
        d.add_attribute a = (true, ⟨d.attributes ++ [a]⟩))
    ∧ (d.attributes.any (fun x => x.name = old) = false →
        d.update_attribute old a = (false, d))
    ∧ (old ≠ a.name → d.attributes.any (fun x => x.name = a.name) = true →
        d.update_attribute old a = (false, d)) := by
  refine ⟨?_, ?_, ?_, ?_⟩
  · intro h
    unfold Dictionary.add_attribute
    rw [if_pos h]
  · intro h
    unfold Dictionary.add_attribute
    rw [if_neg (by simp [h])]
  · intro h
    unfold Dictionary.update_attribute
    rw [if_pos (by simp [h])]
  · intro hne h
    unfold Dictionary.update_attribute
    by_cases hold : d.attributes.any (fun x => x.name = old) = true
    · rw [if_neg (by simp [hold]), if_pos ⟨hne, h⟩]
    · rw [if_pos (by simpa using hold)]

end AnalyseSI
